import Mathlib

/-
  Verification development for the goxz cross-compiling and packaging tool
  (single source file goxz.go).  The Go code is shallowly embedded: pure
  string and list manipulation is translated directly; filesystem and
  process effects are modelled by passing the outcome of each external call
  (directory listings, mkdir and chdir outcomes, the temporary-directory
  name) as explicit inputs, and by recording the side effects a run performs
  as an explicit trace.
-/

namespace Goxz

/-! ## Models of the Go standard-library functions the source uses -/

/-- Characters matched by the character class backslash-s of the Go regexp
    package (RE2 Perl class): HT, LF, FF, CR and SP. -/
def goRegexpSpace (c : Char) : Bool :=
  c == ' ' || c == '\t' || c == '\n' || c == Char.ofNat 12 || c == '\r'

/-- Modelled from the Go standard library: unicode.IsSpace, the set of
    White_Space code points, used by strings.TrimSpace. -/
def goUnicodeSpace (c : Char) : Bool :=
  c.toNat == 0x09 || c.toNat == 0x0A || c.toNat == 0x0B || c.toNat == 0x0C ||
  c.toNat == 0x0D || c.toNat == 0x20 || c.toNat == 0x85 || c.toNat == 0xA0 ||
  c.toNat == 0x1680 || (Nat.ble 0x2000 c.toNat && Nat.ble c.toNat 0x200A) ||
  c.toNat == 0x2028 || c.toNat == 0x2029 || c.toNat == 0x202F ||
  c.toNat == 0x205F || c.toNat == 0x3000

/-- Modelled from the Go standard library: strings.TrimSpace removes leading
    and trailing Unicode white space. -/
def trimSpace (s : String) : String :=
  String.mk (((s.data.dropWhile goUnicodeSpace).reverse.dropWhile goUnicodeSpace).reverse)

/-- Decides whether the first list begins with the second one. -/
def listStarts : List Char → List Char → Bool
  | _, [] => true
  | [], _ :: _ => false
  | c :: cs, p :: ps => c == p && listStarts cs ps

/-- Modelled from the Go standard library: strings.HasPrefix s pat. -/
def strStarts (s pat : String) : Bool :=
  listStarts s.data pat.data

/-- Modelled from the Go standard library: strings.HasSuffix s pat. -/
def strEnds (s pat : String) : Bool :=
  listStarts s.data.reverse pat.data.reverse

/-- Modelled from the Go standard library: filepath.Join dir name for a clean
    directory path and a bare file name, as used throughout goxz.go. -/
def goJoin (dir name : String) : String :=
  dir ++ "/" ++ name

/-- Modelled from the Go standard library: filepath.Base, on slash-separated
    paths.  Empty input gives a dot, an all-slash input gives a slash, and
    otherwise the last path element after stripping trailing slashes. -/
def goBase (p : String) : String :=
  if p = "" then "." else
  let cs := p.data.reverse.dropWhile (fun c => c == '/')
  if cs = [] then "/" else String.mk (cs.takeWhile (fun c => !(c == '/'))).reverse

/-! ## The separator regular expression and its Split

    goxz.go compiles the pattern backslash-s star, group of
    (backslash-s plus alternative comma), backslash-s star, and calls
    its Split method on the user-supplied OS and architecture lists.
    Under the leftmost-first matching of the Go regexp engine a match is
    either a maximal white-space run not followed by a comma, or a
    maximal white-space run, one comma, and the following maximal
    white-space run.  splitStep below realises exactly that as a
    single-pass character scanner: state tok accumulates the current
    token (reversed); state sepA is inside a match before any comma was
    consumed; state sepB is inside a match after its comma, so a further
    comma starts a new match and therefore emits an empty token. -/

/-- Scanner state for the model of the Split method of the separator
    regular expression of goxz.go. -/
inductive SplitState where
  | tok (acc : List Char)
  | sepA
  | sepB
deriving DecidableEq

/-- Single pass over the input realising Split of the goxz separator
    regular expression; see the section comment above. -/
def splitStep : SplitState → List Char → List String
  | .tok acc, [] => [String.mk acc.reverse]
  | .sepA, [] => [""]
  | .sepB, [] => [""]
  | .tok acc, c :: cs =>
    if goRegexpSpace c then String.mk acc.reverse :: splitStep .sepA cs
    else if c == ',' then String.mk acc.reverse :: splitStep .sepB cs
    else splitStep (.tok (c :: acc)) cs
  | .sepA, c :: cs =>
    if goRegexpSpace c then splitStep .sepA cs
    else if c == ',' then splitStep .sepB cs
    else splitStep (.tok [c]) cs
  | .sepB, c :: cs =>
    if goRegexpSpace c then splitStep .sepB cs
    else if c == ',' then "" :: splitStep .sepB cs
    else splitStep (.tok [c]) cs

/-- Model of separateReg.Split s (-1) from goxz.go. -/
def separateSplit (s : String) : List String :=
  splitStep (.tok []) s.data

/-! ## Platform matrix resolution (resolvePlatforms, goxz.go lines 165 to 193) -/

/-- A build target pair, struct platform of goxz.go. -/
structure Platform where
  os : String
  arch : String
deriving DecidableEq

/-- The deduplication key used by resolvePlatforms: pf.os concatenated with a
    colon and pf.arch. -/
def platformKey (p : Platform) : String :=
  p.os ++ ":" ++ p.arch

/-- The double loop of resolvePlatforms: every pair of split tokens, in outer
    OS and inner architecture order, skipping tokens whose TrimSpace is
    empty (the continue statements of the source). -/
def cartPlatforms (osTargets archTargets : List String) : List Platform :=
  (osTargets.filter (fun o => !(trimSpace o == ""))).flatMap (fun o =>
    (archTargets.filter (fun a => !(trimSpace a == ""))).map (fun a => ⟨o, a⟩))

/-- The deduplication loop of resolvePlatforms: the seen map is modelled by
    the list of keys inserted so far; first occurrence of a key wins. -/
def uniqPlatforms : List Platform → List String → List Platform
  | [], _ => []
  | p :: ps, seen =>
    if platformKey p ∈ seen then uniqPlatforms ps seen
    else p :: uniqPlatforms ps (platformKey p :: seen)

/-- Model of resolvePlatforms from goxz.go.  The Go function also returns an
    error value, but every return site returns nil for it, so the model
    returns the platform list alone. -/
def resolvePlatforms (osList archList : String) : List Platform :=
  uniqPlatforms (cartPlatforms (separateSplit osList) (separateSplit archList)) []

/-! ## Destination directory preparation (setupDest, goxz.go lines 202 to 226) -/

/-- One entry of a directory listing as returned by ioutil.ReadDir: the file
    name and whether Mode().IsRegular() holds. -/
structure FileEntry where
  name : String
  isRegular : Bool
deriving DecidableEq

/-- Outcome of the os.Mkdir call at the top of setupDest. -/
inductive MkdirOutcome where
  | created
  | alreadyExists
  | otherErr (e : String)
deriving DecidableEq

/-- Model of setupDest from goxz.go.  The filesystem is passed in as the
    outcome of os.Mkdir and of ioutil.ReadDir; the ok result is the list of
    paths the function removes (os.Remove is modelled as succeeding).
    When Mkdir succeeds the function returns at once; when the directory
    already exists it removes every regular file whose name the condition on
    line 216 accepts, namely strings.HasPrefix(n, dot zip) or
    strings.HasPrefix(n, dot tar dot gz). -/
def setupDest (dir : String) (mk : MkdirOutcome)
    (listing : Except String (List FileEntry)) : Except String (List String) :=
  match mk with
  | .created => .ok []
  | .otherErr e => .error e
  | .alreadyExists =>
    match listing with
    | .error e => .error e
    | .ok files =>
      .ok ((files.filter (fun f =>
        f.isRegular && (strStarts f.name ".zip" || strStarts f.name ".tar.gz"))).map
          (fun f => goJoin dir f.name))

/-! ## Resource gathering (gatherResources, goxz.go lines 253 to 271) -/

/-- Case folding of one pattern character against one subject character, as
    the i flag of the Go regexp package does: simple Unicode case folding.
    The pattern characters of resourceReg are lower-case ASCII letters; for
    those, folding equates the two ASCII cases, and additionally the latin
    small letter long s (U+017F) with s and the kelvin sign (U+212A) with k. -/
def foldEqCh (p c : Char) : Bool :=
  c.toLower == p || (p == 's' && c == Char.ofNat 0x017F) ||
    (p == 'k' && c == Char.ofNat 0x212A)

/-- Case-insensitive test that the subject begins with the pattern. -/
def ciStartsL : List Char → List Char → Bool
  | [], _ => true
  | _ :: _, [] => false
  | p :: ps, c :: cs => foldEqCh p c && ciStartsL ps cs

/-- Case-insensitive test that subject s begins with pattern pat. -/
def ciStarts (pat s : String) : Bool :=
  ciStartsL pat.data s.data

/-- Model of resourceReg.MatchString: the anchored, case-insensitive
    alternative of the four resource name classes of goxz.go line 253. -/
def resourceMatch (n : String) : Bool :=
  ciStarts "readme" n || ciStarts "license" n || ciStarts "credit" n ||
    ciStarts "install" n

/-- The loop body of gatherResources: skip non-regular entries, keep names
    the resource pattern accepts that do not end in the Go source suffix. -/
def gatherLoop (dir : String) : List FileEntry → List String
  | [] => []
  | f :: fs =>
    if !f.isRegular then gatherLoop dir fs
    else if resourceMatch f.name && !strEnds f.name ".go" then
      goJoin dir f.name :: gatherLoop dir fs
    else gatherLoop dir fs

/-- Model of gatherResources from goxz.go.  The directory listing is passed
    in as the outcome of ioutil.ReadDir (which lists only direct entries,
    sorted by name); after a successful listing the function cannot fail. -/
def gatherResources (dir : String) (listing : Except String (List FileEntry)) :
    Except String (List String) :=
  match listing with
  | .error e => .error e
  | .ok files => .ok (gatherLoop dir files)

/-! ## Package path absolutisation (goAbsPkgs, goxz.go lines 228 to 251) -/

/-- The path manipulation collaborators goAbsPkgs uses, passed in abstractly:
    filepath.Clean, filepath.Join and filepath.Rel (which can fail). -/
structure PathOps where
  clean : String → String
  join : String → String → String
  rel : String → String → Except String String

/-- The per-package body of the goAbsPkgs loop: a package path starting with
    a dot is joined onto the project directory, cleaned, and, when the first
    GOPATH src root is a prefix of it, replaced by the path relative to that
    root (the break after the first hit); any other package path is kept. -/
def rewritePkg (ops : PathOps) (gosrcs : List String) (projDir pkg : String) :
    Except String String :=
  if strStarts pkg "." then
    let absPath := ops.clean (ops.join projDir pkg)
    match gosrcs.find? (fun g => strStarts absPath g) with
    | some gosrc => ops.rel gosrc absPath
    | none => .ok pkg
  else .ok pkg

/-- The goAbsPkgs loop over all packages, returning on the first Rel error
    as the source does. -/
def goAbsPkgsLoop (ops : PathOps) (gosrcs : List String) (projDir : String) :
    List String → Except String (List String)
  | [] => .ok []
  | pkg :: rest =>
    match rewritePkg ops gosrcs projDir pkg with
    | .error e => .error e
    | .ok p =>
      match goAbsPkgsLoop ops gosrcs projDir rest with
      | .error e => .error e
      | .ok ps => .ok (p :: ps)

/-- Model of goAbsPkgs from goxz.go.  The GOPATH list elements (the result
    of filepath.SplitList on build.Default.GOPATH) are passed in; each is
    cleaned and joined with src to form the GOPATH source roots. -/
def goAbsPkgs (ops : PathOps) (gopathElems : List String) (pkgs : List String)
    (projDir : String) : Except String (List String) :=
  goAbsPkgsLoop ops (gopathElems.map (fun g => ops.join (ops.clean g) "src")) projDir pkgs

/-! ## Option defaulting (cli.parseArgs and goxz.init, goxz.go lines 97 to 163) -/

/-- The option fields of struct goxz that parseArgs fills from flags. -/
structure GoxzOpts where
  os : String
  arch : String
  name : String
  version : String
  dest : String
  output : String
  buildLdFlags : String
  buildTags : String
  zipAlways : Bool
  work : Bool
  projDir : String
  pkgs : List String
deriving DecidableEq

/-- The tail of cli.parseArgs: the positional arguments become the package
    list, and an empty positional list becomes the single dot package. -/
def parseArgsFinish (gx : GoxzOpts) (positionals : List String) : GoxzOpts :=
  { gx with pkgs := if positionals.isEmpty then ["."] else positionals }

/-- The field defaulting performed by goxz.init before platform resolution:
    an empty project directory becomes the absolute current directory
    (passed in as absDot), an empty name becomes the base name of the
    project directory, an empty destination becomes goxz (inside getDest,
    called by init through setupDest), an empty OS list and architecture
    list become the documented defaults. -/
def initDefaults (gx : GoxzOpts) (absDot : String) : GoxzOpts :=
  let projDir := if gx.projDir = "" then absDot else gx.projDir
  let name := if gx.name = "" then goBase projDir else gx.name
  let dest := if gx.dest = "" then "goxz" else gx.dest
  let osL := if gx.os = "" then "linux darwin windows" else gx.os
  let archL := if gx.arch = "" then "amd64" else gx.arch
  { gx with projDir := projDir, name := name, dest := dest, os := osL, arch := archL }

/-- The platform list goxz.init computes: resolvePlatforms applied to the
    defaulted OS and architecture lists. -/
def initPlatforms (gx : GoxzOpts) (absDot : String) : List Platform :=
  resolvePlatforms (initDefaults gx absDot).os (initDefaults gx absDot).arch

/-! ## The run coordinator (Run and cli.run, goxz.go lines 26 to 95)

    cli.run is modelled as a function from the outcomes of its external
    calls to the pair of the side-effect trace it performs and the error it
    returns.  The builders loop of lines 89 to 92 invokes build on every
    builder and discards both results, so a build outcome never changes the
    control flow; prepareWorkdir (lines 292 to 296) is modelled by the
    suffix ioutil.TempDir appends to the pattern inside the project
    directory. -/

/-- The two fields of the parsed options that steer cli.run itself. -/
structure RunGx where
  projDir : String
  work : Bool
deriving DecidableEq

/-- Outcomes of every external call cli.run performs, in program order. -/
structure RunEnv where
  parse : Except String RunGx
  absDot : Except String String
  chdirErr : Option String
  initErr : Option String
  projDirResolved : String
  tempRes : Except String String
  buildErrs : List Bool

/-- The side effects cli.run can perform, recorded as a trace. -/
inductive Effect where
  | chdir (dir : String)
  | chdirBack (dir : String)
  | logWorkDirMsg (dir : String)
  | buildCall (idx : Nat) (failed : Bool)
  | removeAll (dir : String)
deriving DecidableEq

/-- Model of goxz.prepareWorkdir: ioutil.TempDir(projDir, goxz pattern)
    creates a fresh directory inside the project directory whose name is the
    pattern followed by a random suffix; the suffix is passed in. -/
def prepareWorkdir (projDir sfx : String) : String :=
  projDir ++ "/.goxz-" ++ sfx

/-- The part of cli.run after a successful parse and directory change: init,
    prepareWorkdir, the deferred removal of the work directory (skipped when
    the work flag is set), the work directory log line, and the builders
    loop, whose build results are discarded. -/
def runCore (gx : RunGx) (env : RunEnv) : List Effect × Option String :=
  match env.initErr with
  | some e => ([], some e)
  | none =>
    match env.tempRes with
    | .error e => ([], some e)
    | .ok sfx =>
      let wd := prepareWorkdir env.projDirResolved sfx
      let header := if gx.work then [Effect.logWorkDirMsg wd] else []
      let builds := env.buildErrs.enum.map (fun p => Effect.buildCall p.1 p.2)
      let footer := if gx.work then [] else [Effect.removeAll wd]
      (header ++ builds ++ footer, none)

/-- Model of cli.run from goxz.go: parse, an optional directory change with
    its deferred restore, then runCore. -/
def cliRun (env : RunEnv) : List Effect × Option String :=
  match env.parse with
  | .error e => ([], some e)
  | .ok gx =>
    if gx.projDir = "" then runCore gx env
    else
      match env.absDot with
      | .error e => ([], some e)
      | .ok prev =>
        match env.chdirErr with
        | some e => ([], some e)
        | none =>
          let r := runCore gx env
          (Effect.chdir gx.projDir :: (r.1 ++ [Effect.chdirBack prev]), r.2)

/-- Exit code constant of goxz.go line 20. -/
def exitCodeOK : Nat := 0

/-- Exit code constant of goxz.go line 21; declared in the source and never
    returned by it. -/
def exitFlagErr : Nat := 1

/-- Exit code constant of goxz.go line 22. -/
def exitCodeErr : Nat := 2

/-- Model of Run from goxz.go: any non-nil error from cli.run maps to
    exitCodeErr, a nil error to exitCodeOK. -/
def goxzRunExit (env : RunEnv) : Nat :=
  match (cliRun env).2 with
  | some _ => exitCodeErr
  | none => exitCodeOK

/-! ## Theorems -/

/-- The gatherResources loop keeps exactly the regular entries whose name the
    resource pattern accepts and that do not end in the Go source suffix. -/
theorem gatherLoop_eq_filter (dir : String) (files : List FileEntry) :
    gatherLoop dir files =
      (files.filter (fun f => f.isRegular && (resourceMatch f.name && !strEnds f.name ".go"))).map
        (fun f => goJoin dir f.name) := by
  induction files with
  | nil => rfl
  | cons f fs ih =>
    simp only [gatherLoop, List.filter_cons]
    cases hr : f.isRegular <;> cases hm : resourceMatch f.name <;>
      cases he : strEnds f.name ".go" <;> simp [hr, hm, he, ih]

/-- C1: the claim says setupDest purges every stale regular file carrying the
    archive naming convention (a name ending in the zip or the tar.gz
    suffix) from an existing destination directory.  The code tests the
    names with strings.HasPrefix instead of strings.HasSuffix (goxz.go line
    216), so a destination holding the archives produced by a previous run
    keeps all of them, and only a file whose name literally begins with the
    suffix text is removed. -/
theorem setupDest_keeps_stale_archives :
    setupDest "goxz" .alreadyExists (.ok [⟨"goxz_0.1.0_linux_amd64.zip", true⟩,
        ⟨"goxz_0.1.0_darwin_amd64.tar.gz", true⟩, ⟨".zip-oddly-named", true⟩]) =
      .ok ["goxz/.zip-oddly-named"] ∧
    strEnds "goxz_0.1.0_linux_amd64.zip" ".zip" = true ∧
    strEnds "goxz_0.1.0_darwin_amd64.tar.gz" ".tar.gz" = true :=
  ⟨rfl, by decide, by decide⟩

/-- C2: the claim says a run in which some build fails has a failing overall
    outcome while the other builders still run.  In the code every builder
    does run (the loop of goxz.go lines 89 to 92 never exits early), but the
    two results of build are discarded, cli.run returns nil, and Run maps
    that to exit code 0: below, builder 0 fails, builder 1 still runs, and
    the run nevertheless reports success. -/
theorem builder_failure_ignored_by_run :
    (cliRun ⟨.ok ⟨"", false⟩, .ok "", none, none, "/proj", .ok "x1", [true, false]⟩).2 = none ∧
    goxzRunExit ⟨.ok ⟨"", false⟩, .ok "", none, none, "/proj", .ok "x1", [true, false]⟩ =
      exitCodeOK ∧
    Effect.buildCall 0 true ∈
      (cliRun ⟨.ok ⟨"", false⟩, .ok "", none, none, "/proj", .ok "x1", [true, false]⟩).1 ∧
    Effect.buildCall 1 false ∈
      (cliRun ⟨.ok ⟨"", false⟩, .ok "", none, none, "/proj", .ok "x1", [true, false]⟩).1 := by
  decide

/-- C3: the claim says a flag-parse error yields exit code 1.  Run (goxz.go
    lines 26 to 35) maps every non-nil error from cli.run, the error
    returned by fs.Parse included, to exitCodeErr, the constant 2; the
    constant exitFlagErr with value 1 is declared on line 21 and never
    returned anywhere. -/
theorem flag_parse_error_exits_two :
    goxzRunExit ⟨.error "flag provided but not defined: -bad", .ok "", none, none, "",
      .ok "", []⟩ = exitCodeErr ∧
    goxzRunExit ⟨.error "flag provided but not defined: -bad", .ok "", none, none, "",
      .ok "", []⟩ ≠ exitFlagErr := by decide

/-- C6: gatherResources over a successfully listed directory returns exactly
    the regular entries whose name carries one of the four case-insensitive
    resource name classes and does not end in the Go source suffix, joined
    onto the directory; in particular over LICENSE, README.md, install.go
    and main.go it returns exactly the LICENSE and README.md paths. -/
theorem gatherResources_selection :
    (∀ (dir : String) (files : List FileEntry),
      gatherResources dir (.ok files) =
        .ok ((files.filter (fun f =>
            f.isRegular && (resourceMatch f.name && !strEnds f.name ".go"))).map
          (fun f => goJoin dir f.name))) ∧
    gatherResources "proj" (.ok [⟨"LICENSE", true⟩, ⟨"README.md", true⟩,
        ⟨"install.go", true⟩, ⟨"main.go", true⟩]) =
      .ok ["proj/LICENSE", "proj/README.md"] := by
  refine ⟨fun dir files => ?_, by rfl⟩
  simp [gatherResources, gatherLoop_eq_filter]

/-- C7: over a successfully listed directory in which no entry satisfies the
    resource selection rule, gatherResources returns the empty list with a
    nil error; after a successful listing the function has no error path at
    all. -/
theorem gatherResources_no_match_empty (dir : String) (files : List FileEntry)
    (h : ∀ f ∈ files, ¬(f.isRegular = true ∧ resourceMatch f.name = true ∧
      strEnds f.name ".go" = false)) :
    gatherResources dir (.ok files) = .ok [] := by
  have hfil : files.filter (fun f =>
      f.isRegular && (resourceMatch f.name && !strEnds f.name ".go")) = [] := by
    rw [List.filter_eq_nil_iff]
    intro f hf
    have := h f hf
    cases hr : f.isRegular <;> cases hm : resourceMatch f.name <;>
      cases he : strEnds f.name ".go" <;> simp_all
  simp [gatherResources, gatherLoop_eq_filter, hfil]

/-- Witness for C7 at a concrete directory listing. -/
theorem gatherResources_no_match_empty_witness :
    gatherResources "proj" (.ok [⟨"main.go", true⟩, ⟨"install.go", true⟩,
      ⟨"README.md", false⟩]) = .ok [] :=
  gatherResources_no_match_empty "proj" _ (by decide)

/-- C8: before the platform list is resolved, parseArgs and init fill the
    documented default for every unset option: OS list, architecture list,
    application name (the base name of the project directory), destination
    directory and positional package list; and the platform list of init is
    resolvePlatforms applied to the defaulted OS and architecture lists. -/
theorem init_fills_defaults (gx : GoxzOpts) (absDot : String) (positionals : List String) :
    (gx.os = "" → (initDefaults gx absDot).os = "linux darwin windows") ∧
    (gx.arch = "" → (initDefaults gx absDot).arch = "amd64") ∧
    (gx.name = "" → (initDefaults gx absDot).name = goBase (initDefaults gx absDot).projDir) ∧
    (gx.dest = "" → (initDefaults gx absDot).dest = "goxz") ∧
    (positionals = [] → (parseArgsFinish gx positionals).pkgs = ["."]) ∧
    initPlatforms gx absDot =
      resolvePlatforms (initDefaults gx absDot).os (initDefaults gx absDot).arch := by
  refine ⟨?_, ?_, ?_, ?_, ?_, rfl⟩ <;> intro h <;> simp [initDefaults, parseArgsFinish, h]

/-- Witness for C8 on a wholly unset option record. -/
theorem init_fills_defaults_witness :
    ((initDefaults ⟨"", "", "", "", "", "", "", "", false, false, "/home/u/proj", []⟩ "/abs").os =
      "linux darwin windows") ∧
    ((initDefaults ⟨"", "", "", "", "", "", "", "", false, false, "/home/u/proj", []⟩ "/abs").arch =
      "amd64") ∧
    ((initDefaults ⟨"", "", "", "", "", "", "", "", false, false, "/home/u/proj", []⟩ "/abs").name =
      goBase (initDefaults ⟨"", "", "", "", "", "", "", "", false, false, "/home/u/proj",
        []⟩ "/abs").projDir) ∧
    ((initDefaults ⟨"", "", "", "", "", "", "", "", false, false, "/home/u/proj", []⟩ "/abs").dest =
      "goxz") ∧
    (parseArgsFinish ⟨"", "", "", "", "", "", "", "", false, false, "/home/u/proj", []⟩ []).pkgs =
      ["."] := by
  have t := init_fills_defaults ⟨"", "", "", "", "", "", "", "", false, false, "/home/u/proj", []⟩
    "/abs" []
  exact ⟨t.1 rfl, t.2.1 rfl, t.2.2.1 rfl, t.2.2.2.1 rfl, t.2.2.2.2.1 rfl⟩

/-- C9: once the workspace has been created, the trace of cli.run removes it
    recursively at run end when the work flag is unset; with the flag set it
    is retained and its path is logged.  The workspace path itself is the
    TempDir pattern inside the project directory followed by the fresh
    suffix, so it lies inside the project directory; freshness of the suffix
    is the contract of ioutil.TempDir, taken as given by the model. -/
theorem workdir_lifecycle (env : RunEnv) (gx : RunGx) (sfx : String)
    (hp : env.parse = .ok gx)
    (hc : gx.projDir = "" ∨ ((∃ prev, env.absDot = .ok prev) ∧ env.chdirErr = none))
    (hi : env.initErr = none) (ht : env.tempRes = .ok sfx) :
    prepareWorkdir env.projDirResolved sfx = env.projDirResolved ++ "/.goxz-" ++ sfx ∧
    (gx.work = false →
      Effect.removeAll (prepareWorkdir env.projDirResolved sfx) ∈ (cliRun env).1) ∧
    (gx.work = true →
      Effect.removeAll (prepareWorkdir env.projDirResolved sfx) ∉ (cliRun env).1 ∧
      Effect.logWorkDirMsg (prepareWorkdir env.projDirResolved sfx) ∈ (cliRun env).1) := by
  have hcore : runCore gx env =
      ((if gx.work then [Effect.logWorkDirMsg (prepareWorkdir env.projDirResolved sfx)] else []) ++
        env.buildErrs.enum.map (fun p => Effect.buildCall p.1 p.2) ++
        (if gx.work then [] else [Effect.removeAll (prepareWorkdir env.projDirResolved sfx)]),
        none) := by
    simp [runCore, hi, ht]
  refine ⟨rfl, ?_, ?_⟩
  · intro hw
    rcases hc with hc | ⟨⟨prev, hab⟩, hch⟩
    · simp [cliRun, hp, hc, hcore, hw]
    · by_cases hpd : gx.projDir = ""
      · simp [cliRun, hp, hpd, hcore, hw]
      · simp [cliRun, hp, hpd, hab, hch, hcore, hw]
  · intro hw
    rcases hc with hc | ⟨⟨prev, hab⟩, hch⟩
    · constructor
      · simp [cliRun, hp, hc, hcore, hw, List.mem_map]
      · simp [cliRun, hp, hc, hcore, hw]
    · by_cases hpd : gx.projDir = ""
      · constructor
        · simp [cliRun, hp, hpd, hcore, hw, List.mem_map]
        · simp [cliRun, hp, hpd, hcore, hw]
      · constructor
        · simp [cliRun, hp, hpd, hab, hch, hcore, hw, List.mem_map]
        · simp [cliRun, hp, hpd, hab, hch, hcore, hw]

/-- Witness for C9 on a concrete run without the work flag. -/
theorem workdir_lifecycle_witness :
    prepareWorkdir "/proj" "rand1" = "/proj" ++ "/.goxz-" ++ "rand1" ∧
    ((false : Bool) = false →
      Effect.removeAll (prepareWorkdir "/proj" "rand1") ∈
        (cliRun ⟨.ok ⟨"/proj", false⟩, .ok "/prev", none, none, "/proj", .ok "rand1", [false]⟩).1) ∧
    ((false : Bool) = true →
      Effect.removeAll (prepareWorkdir "/proj" "rand1") ∉
        (cliRun ⟨.ok ⟨"/proj", false⟩, .ok "/prev", none, none, "/proj", .ok "rand1", [false]⟩).1 ∧
      Effect.logWorkDirMsg (prepareWorkdir "/proj" "rand1") ∈
        (cliRun ⟨.ok ⟨"/proj", false⟩, .ok "/prev", none, none, "/proj", .ok "rand1", [false]⟩).1) :=
  workdir_lifecycle ⟨.ok ⟨"/proj", false⟩, .ok "/prev", none, none, "/proj", .ok "rand1", [false]⟩
    ⟨"/proj", false⟩ "rand1" rfl (.inr ⟨⟨"/prev", rfl⟩, rfl⟩) rfl rfl

/-- The goAbsPkgs loop keeps list length and order, and every package the
    loop body leaves unchanged stays at its position. -/
theorem goAbsPkgsLoop_shape (ops : PathOps) (gosrcs : List String) (projDir : String) :
    ∀ (pkgs out : List String), goAbsPkgsLoop ops gosrcs projDir pkgs = .ok out →
      out.length = pkgs.length ∧
      ∀ (i : Nat) (pkg : String), pkgs[i]? = some pkg →
        (strStarts pkg "." = false → out[i]? = some pkg) ∧
        (strStarts pkg "." = true →
          (∀ g ∈ gosrcs, strStarts (ops.clean (ops.join projDir pkg)) g = false) →
          out[i]? = some pkg) := by
  intro pkgs
  induction pkgs with
  | nil =>
    intro out h
    simp only [goAbsPkgsLoop] at h
    injection h with h
    subst h
    exact ⟨rfl, by intro i pkg hp; simp at hp⟩
  | cons pkg rest ih =>
    intro out h
    simp only [goAbsPkgsLoop] at h
    cases hrw : rewritePkg ops gosrcs projDir pkg with
    | error e => rw [hrw] at h; exact absurd h (by simp)
    | ok p =>
      rw [hrw] at h
      cases hrest : goAbsPkgsLoop ops gosrcs projDir rest with
      | error e => rw [hrest] at h; exact absurd h (by simp)
      | ok ps =>
        rw [hrest] at h
        injection h with h
        subst h
        obtain ⟨ihlen, ihidx⟩ := ih ps hrest
        refine ⟨by simp [ihlen], ?_⟩
        intro i pkg0 hp
        cases i with
        | zero =>
          simp only [List.getElem?_cons_zero] at hp
          injection hp with hp
          subst hp
          constructor
          · intro hdot
            simp [rewritePkg, hdot] at hrw
            simp [hrw]
          · intro hdot hno
            have hfind : gosrcs.find? (fun g =>
                strStarts (ops.clean (ops.join projDir pkg)) g) = none := by
              rw [List.find?_eq_none]
              intro g hg
              simp [hno g hg]
            simp [rewritePkg, hdot, hfind] at hrw
            simp [hrw]
        | succ j =>
          simp only [List.getElem?_cons_succ] at hp
          have := ihidx j pkg0 hp
          simpa using this

/-- C10: on success goAbsPkgs returns a list of the same length in the same
    order; every package path not starting with a dot is passed through
    unchanged, and a dot-prefixed path is also passed through when its
    absolute form lies under none of the GOPATH source roots. -/
theorem goAbsPkgs_keeps_non_relative (ops : PathOps) (gopathElems pkgs : List String)
    (projDir : String) (out : List String)
    (h : goAbsPkgs ops gopathElems pkgs projDir = .ok out) :
    out.length = pkgs.length ∧
    ∀ (i : Nat) (pkg : String), pkgs[i]? = some pkg →
      (strStarts pkg "." = false → out[i]? = some pkg) ∧
      (strStarts pkg "." = true →
        (∀ g ∈ gopathElems.map (fun g => ops.join (ops.clean g) "src"),
          strStarts (ops.clean (ops.join projDir pkg)) g = false) →
        out[i]? = some pkg) :=
  goAbsPkgsLoop_shape ops _ projDir pkgs out h

/-- Identity-like path operations used to instantiate the C10 witness. -/
def plainOps : PathOps := ⟨fun s => s, fun a b => a ++ "/" ++ b, fun _ p => .ok p⟩

/-- Witness for C10: the non-relative package of a concrete run is kept at
    its position. -/
theorem goAbsPkgs_keeps_non_relative_witness :
    ((["github.com/foo/bar", "."] : List String)[0]? = some "github.com/foo/bar") :=
  ((goAbsPkgs_keeps_non_relative plainOps ["/go"] ["github.com/foo/bar", "."] "/proj"
      ["github.com/foo/bar", "."] rfl).2 0 "github.com/foo/bar" rfl).1 rfl

/-- Every platform the deduplication loop keeps comes from its input list. -/
theorem uniqPlatforms_subset :
    ∀ (l : List Platform) (seen : List String) (p : Platform),
      p ∈ uniqPlatforms l seen → p ∈ l := by
  intro l
  induction l with
  | nil => intro seen p hp; simp [uniqPlatforms] at hp
  | cons q qs ih =>
    intro seen p hp
    by_cases hk : platformKey q ∈ seen
    · rw [uniqPlatforms, if_pos hk] at hp
      exact List.mem_cons_of_mem _ (ih _ _ hp)
    · rw [uniqPlatforms, if_neg hk] at hp
      rcases List.mem_cons.mp hp with h | h
      · exact h ▸ List.mem_cons_self _ _
      · exact List.mem_cons_of_mem _ (ih _ _ h)

/-- The keys of the platforms the deduplication loop keeps are distinct and
    disjoint from the keys already seen. -/
theorem uniqPlatforms_keys :
    ∀ (l : List Platform) (seen : List String),
      ((uniqPlatforms l seen).map platformKey).Nodup ∧
      ∀ p ∈ uniqPlatforms l seen, platformKey p ∉ seen := by
  intro l
  induction l with
  | nil => intro seen; simp [uniqPlatforms]
  | cons q qs ih =>
    intro seen
    by_cases hk : platformKey q ∈ seen
    · rw [uniqPlatforms, if_pos hk]
      exact ih seen
    · rw [uniqPlatforms, if_neg hk]
      obtain ⟨ihnd, ihseen⟩ := ih (platformKey q :: seen)
      refine ⟨?_, ?_⟩
      · rw [List.map_cons, List.nodup_cons]
        refine ⟨?_, ihnd⟩
        intro hmem
        obtain ⟨r, hr, hkey⟩ := List.mem_map.mp hmem
        exact ihseen r hr (hkey ▸ List.mem_cons_self _ _)
      · intro p hp
        rcases List.mem_cons.mp hp with h | h
        · exact h ▸ hk
        · exact fun hmem => ihseen p h (List.mem_cons_of_mem _ hmem)

/-- Counting distinct elements after a cons equals one plus the count of the
    distinct remaining elements different from the head. -/
theorem dedup_length_cons_erase {α : Type} [DecidableEq α] (k : α) (A : List α) :
    ((k :: A).dedup).length = ((A.filter (fun x => decide (x ≠ k))).dedup).length + 1 := by
  rw [← List.card_toFinset, ← List.card_toFinset, List.toFinset_cons, List.toFinset_filter]
  have hfe : Finset.filter (fun x => decide (x ≠ k) = true) A.toFinset =
      Finset.filter (fun x => x ≠ k) A.toFinset := by
    apply Finset.filter_congr
    intro x _
    simp
  rw [hfe, Finset.filter_ne']
  by_cases hk : k ∈ A.toFinset
  · rw [Finset.insert_eq_self.mpr hk, Finset.card_erase_of_mem hk]
    have : 0 < A.toFinset.card := Finset.card_pos.mpr ⟨k, hk⟩
    omega
  · rw [Finset.card_insert_of_not_mem hk, Finset.erase_eq_of_not_mem hk]

/-- The deduplication loop keeps exactly one platform per distinct unseen
    key: its result length is the number of distinct unseen keys. -/
theorem uniqPlatforms_length :
    ∀ (l : List Platform) (seen : List String),
      (uniqPlatforms l seen).length =
        (((l.map platformKey).filter (fun k => decide (k ∉ seen))).dedup).length := by
  intro l
  induction l with
  | nil => intro seen; rfl
  | cons q qs ih =>
    intro seen
    by_cases hk : platformKey q ∈ seen
    · rw [uniqPlatforms, if_pos hk, ih]
      have : (List.map platformKey (q :: qs)).filter (fun k => decide (k ∉ seen)) =
          (List.map platformKey qs).filter (fun k => decide (k ∉ seen)) := by
        rw [List.map_cons, List.filter_cons]
        simp [hk]
      rw [this]
    · rw [uniqPlatforms, if_neg hk]
      have hstep : (List.map platformKey (q :: qs)).filter (fun k => decide (k ∉ seen)) =
          platformKey q :: (List.map platformKey qs).filter (fun k => decide (k ∉ seen)) := by
        rw [List.map_cons, List.filter_cons]
        simp [hk]
      rw [hstep, List.length_cons, ih (platformKey q :: seen),
        dedup_length_cons_erase (platformKey q)]
      have heq : (List.map platformKey qs).filter (fun x => decide (x ∉ platformKey q :: seen)) =
          ((List.map platformKey qs).filter (fun k => decide (k ∉ seen))).filter
            (fun x => decide (x ≠ platformKey q)) := by
        rw [List.filter_filter]
        apply List.filter_congr
        intro x _
        by_cases h1 : x = platformKey q <;> by_cases h2 : x ∈ seen <;>
          simp [h1, h2]
      rw [heq]

/-- Mapping an injective-on-the-list function does not change the number of
    distinct elements. -/
theorem dedup_length_map_inj {α β : Type} [DecidableEq α] [DecidableEq β] (f : α → β)
    (l : List α) (hinj : ∀ p ∈ l, ∀ q ∈ l, f p = f q → p = q) :
    ((l.map f).dedup).length = l.dedup.length := by
  rw [← List.card_toFinset, ← List.card_toFinset]
  have himg : (l.map f).toFinset = l.toFinset.image f := by
    ext b
    simp [List.mem_toFinset, List.mem_map, Finset.mem_image]
  rw [himg]
  apply Finset.card_image_of_injOn
  intro p hp q hq h
  exact hinj p (List.mem_toFinset.mp hp) q (List.mem_toFinset.mp hq) h

/-- Appending a colon and a tail to a colon-free character list is injective
    in both parts. -/
theorem colonFree_append_inj :
    ∀ (a b x y : List Char), ':' ∉ a → ':' ∉ b → a ++ ':' :: x = b ++ ':' :: y →
      a = b ∧ x = y := by
  intro a
  induction a with
  | nil =>
    intro b x y _ hb h
    cases b with
    | nil => simpa using h
    | cons d ds =>
      simp only [List.nil_append, List.cons_append, List.cons.injEq] at h
      exact absurd (h.1 ▸ List.mem_cons_self _ _) hb
  | cons c cs ih =>
    intro b x y ha hb h
    cases b with
    | nil =>
      simp only [List.nil_append, List.cons_append, List.cons.injEq] at h
      exact absurd (h.1 ▸ List.mem_cons_self _ _) ha
    | cons d ds =>
      simp only [List.cons_append, List.cons.injEq] at h
      obtain ⟨rfl, h2⟩ := h
      have := ih ds x y (fun hm => ha (List.mem_cons_of_mem _ hm))
        (fun hm => hb (List.mem_cons_of_mem _ hm)) h2
      exact ⟨by rw [this.1], this.2⟩

/-- On platforms whose OS part is colon-free, the deduplication key is
    injective. -/
theorem platformKey_inj (p q : Platform) (hp : ':' ∉ p.os.data) (hq : ':' ∉ q.os.data)
    (h : platformKey p = platformKey q) : p = q := by
  have hd : p.os.data ++ ':' :: p.arch.data = q.os.data ++ ':' :: q.arch.data := by
    have hda := congrArg String.data h
    simpa [platformKey, String.data_append] using hda
  obtain ⟨h1, h2⟩ := colonFree_append_inj _ _ _ _ hp hq hd
  cases p with
  | mk pos parch =>
    cases q with
    | mk qos qarch =>
      simp only at h1 h2
      exact congrArg₂ Platform.mk (String.ext h1) (String.ext h2)

/-- Every character of every token the split scanner emits comes from the
    pending accumulator or from the remaining input. -/
theorem splitStep_chars :
    ∀ (cs : List Char) (st : SplitState) (t : String), t ∈ splitStep st cs →
      ∀ c ∈ t.data, (∃ acc, st = .tok acc ∧ c ∈ acc) ∨ c ∈ cs := by
  intro cs
  induction cs with
  | nil =>
    intro st t ht c hc
    cases st with
    | tok acc =>
      simp only [splitStep, List.mem_singleton] at ht
      subst ht
      exact .inl ⟨acc, rfl, by simpa using hc⟩
    | sepA =>
      simp only [splitStep, List.mem_singleton] at ht
      subst ht
      simp at hc
    | sepB =>
      simp only [splitStep, List.mem_singleton] at ht
      subst ht
      simp at hc
  | cons a as ih =>
    intro st t ht c hc
    cases st with
    | tok acc =>
      simp only [splitStep] at ht
      by_cases h1 : goRegexpSpace a = true
      · rw [if_pos h1] at ht
        rcases List.mem_cons.mp ht with h | h
        · subst h
          exact .inl ⟨acc, rfl, by simpa using hc⟩
        · rcases ih _ _ h c hc with ⟨acc2, hacc, _⟩ | h2
          · exact absurd hacc (by simp)
          · exact .inr (List.mem_cons_of_mem _ h2)
      · rw [if_neg h1] at ht
        by_cases h2 : (a == ',') = true
        · rw [if_pos h2] at ht
          rcases List.mem_cons.mp ht with h | h
          · subst h
            exact .inl ⟨acc, rfl, by simpa using hc⟩
          · rcases ih _ _ h c hc with ⟨acc2, hacc, _⟩ | h3
            · exact absurd hacc (by simp)
            · exact .inr (List.mem_cons_of_mem _ h3)
        · rw [if_neg h2] at ht
          rcases ih _ _ ht c hc with ⟨acc2, hacc, hmem⟩ | h3
          · have : acc2 = a :: acc := by
              injection hacc with h
              exact h.symm
            subst this
            rcases List.mem_cons.mp hmem with h | h
            · exact .inr (h ▸ List.mem_cons_self _ _)
            · exact .inl ⟨acc, rfl, h⟩
          · exact .inr (List.mem_cons_of_mem _ h3)
    | sepA =>
      simp only [splitStep] at ht
      by_cases h1 : goRegexpSpace a = true
      · rw [if_pos h1] at ht
        rcases ih _ _ ht c hc with ⟨acc2, hacc, _⟩ | h2
        · exact absurd hacc (by simp)
        · exact .inr (List.mem_cons_of_mem _ h2)
      · rw [if_neg h1] at ht
        by_cases h2 : (a == ',') = true
        · rw [if_pos h2] at ht
          rcases ih _ _ ht c hc with ⟨acc2, hacc, _⟩ | h3
          · exact absurd hacc (by simp)
          · exact .inr (List.mem_cons_of_mem _ h3)
        · rw [if_neg h2] at ht
          rcases ih _ _ ht c hc with ⟨acc2, hacc, hmem⟩ | h3
          · have : acc2 = [a] := by
              injection hacc with h
              exact h.symm
            subst this
            have : c = a := by simpa using hmem
            exact .inr (this ▸ List.mem_cons_self _ _)
          · exact .inr (List.mem_cons_of_mem _ h3)
    | sepB =>
      simp only [splitStep] at ht
      by_cases h1 : goRegexpSpace a = true
      · rw [if_pos h1] at ht
        rcases ih _ _ ht c hc with ⟨acc2, hacc, _⟩ | h2
        · exact absurd hacc (by simp)
        · exact .inr (List.mem_cons_of_mem _ h2)
      · rw [if_neg h1] at ht
        by_cases h2 : (a == ',') = true
        · rw [if_pos h2] at ht
          rcases List.mem_cons.mp ht with h | h
          · subst h
            simp at hc
          · rcases ih _ _ h c hc with ⟨acc2, hacc, _⟩ | h3
            · exact absurd hacc (by simp)
            · exact .inr (List.mem_cons_of_mem _ h3)
        · rw [if_neg h2] at ht
          rcases ih _ _ ht c hc with ⟨acc2, hacc, hmem⟩ | h3
          · have : acc2 = [a] := by
              injection hacc with h
              exact h.symm
            subst this
            have : c = a := by simpa using hmem
            exact .inr (this ▸ List.mem_cons_self _ _)
          · exact .inr (List.mem_cons_of_mem _ h3)

/-- Every character of every token of the separator split comes from the
    input string. -/
theorem separateSplit_chars (s t : String) (ht : t ∈ separateSplit s) :
    ∀ c ∈ t.data, c ∈ s.data := by
  intro c hc
  rcases splitStep_chars s.data (.tok []) t ht c hc with ⟨acc, hacc, hmem⟩ | h
  · have : acc = [] := by
      injection hacc with h
      exact h.symm
    subst this
    simp at hmem
  · exact h

/-- Every platform of the double loop is built from kept tokens of the two
    split lists, both with nonempty trimmed text. -/
theorem cartPlatforms_mem (osT archT : List String) (p : Platform)
    (hp : p ∈ cartPlatforms osT archT) :
    p.os ∈ osT ∧ p.arch ∈ archT ∧ trimSpace p.os ≠ "" ∧ trimSpace p.arch ≠ "" := by
  simp only [cartPlatforms, List.mem_flatMap, List.mem_map, List.mem_filter] at hp
  obtain ⟨o, ⟨ho, hotrim⟩, a, ⟨ha, hatrim⟩, rfl⟩ := hp
  refine ⟨ho, ha, ?_, ?_⟩
  · simpa using hotrim
  · simpa using hatrim

/-- C5: resolvePlatforms splits its two inputs on mixed white-space and
    comma separators, discarding tokens that trim to nothing, so no platform
    of its result has an empty OS or an empty architecture component; the
    second conjunct shows the split on the mixed-separator example of the
    specification. -/
theorem resolvePlatforms_no_empty :
    (∀ (osL archL : String) (p : Platform), p ∈ resolvePlatforms osL archL →
      p.os ≠ "" ∧ p.arch ≠ "") ∧
    separateSplit "linux darwin, windows" = ["linux", "darwin", "windows"] := by
  refine ⟨?_, by decide⟩
  intro osL archL p hp
  have hmem := cartPlatforms_mem _ _ p (uniqPlatforms_subset _ _ p hp)
  refine ⟨fun h => hmem.2.2.1 ?_, fun h => hmem.2.2.2 ?_⟩
  · rw [h]; rfl
  · rw [h]; rfl

/-- Witness for C5 on a concrete resolved platform. -/
theorem resolvePlatforms_no_empty_witness :
    (Platform.mk "linux" "amd64").os ≠ "" ∧ (Platform.mk "linux" "amd64").arch ≠ "" :=
  resolvePlatforms_no_empty.1 "linux" "amd64" ⟨"linux", "amd64"⟩ (by decide)

/-- Counterexample for C4 as stated: deduplication works on the textual key
    of OS, colon, architecture, so when an OS token itself holds a colon two
    distinct pairs can share a key; here the pairs a:b with c and a with b:c
    collide and the result drops a distinct pair, length 3 against 4
    distinct pairs of the Cartesian product. -/
theorem resolvePlatforms_length_counterexample :
    (resolvePlatforms "a:b a" "c b:c").length ≠
      ((cartPlatforms (separateSplit "a:b a") (separateSplit "c b:c")).dedup).length := by
  decide

/-- C4 amended: the resolved list never holds duplicate pairs, and whenever
    the OS input string holds no colon character its length equals the
    number of distinct pairs of the Cartesian product of the kept tokens;
    the concrete example resolves exactly as the claim states, in first-seen
    order. -/
theorem resolvePlatforms_nodup_length (osL archL : String) :
    (resolvePlatforms osL archL).Nodup ∧
    (':' ∉ osL.data →
      (resolvePlatforms osL archL).length =
        ((cartPlatforms (separateSplit osL) (separateSplit archL)).dedup).length) ∧
    resolvePlatforms "linux, darwin" "amd64 arm64" =
      [⟨"linux", "amd64"⟩, ⟨"linux", "arm64"⟩, ⟨"darwin", "amd64"⟩, ⟨"darwin", "arm64"⟩] := by
  refine ⟨?_, ?_, by decide⟩
  · exact List.Nodup.of_map platformKey (uniqPlatforms_keys _ []).1
  · intro hcolon
    rw [resolvePlatforms, uniqPlatforms_length]
    have hfe : ((cartPlatforms (separateSplit osL) (separateSplit archL)).map
        platformKey).filter (fun k => decide (k ∉ ([] : List String))) =
        (cartPlatforms (separateSplit osL) (separateSplit archL)).map platformKey := by
      apply List.filter_eq_self.mpr
      intro a _
      simp
    rw [hfe]
    apply dedup_length_map_inj
    intro p hpmem q hqmem hkey
    have hpos : ':' ∉ p.os.data := by
      intro hmem
      exact hcolon (separateSplit_chars osL p.os
        ((cartPlatforms_mem _ _ p hpmem).1) ':' hmem)
    have hqos : ':' ∉ q.os.data := by
      intro hmem
      exact hcolon (separateSplit_chars osL q.os
        ((cartPlatforms_mem _ _ q hqmem).1) ':' hmem)
    exact platformKey_inj p q hpos hqos hkey

/-- Witness for C4 on the concrete example of the claim. -/
theorem resolvePlatforms_nodup_length_witness :
    (resolvePlatforms "linux, darwin" "amd64 arm64").length =
      ((cartPlatforms (separateSplit "linux, darwin")
        (separateSplit "amd64 arm64")).dedup).length :=
  (resolvePlatforms_nodup_length "linux, darwin" "amd64 arm64").2.1 (by decide)

end Goxz
